import Mathlib

/-!
# Verification of the armul debugger host (TypeScript side)

A shallow embedding of the host/UI code of the armul ARM7TDMI debugger:
the condition-code display (`src/components/my/Registers.tsx`), the CPSR
flag/mode display, the number renderer and register-range renderer
(`src/components/my/MemoryRow.tsx`), the play loop and action reducer
(`src/AppAction.tsx`), the status display (`src/components/my/Status.tsx`)
and the host-side processor mirror (`src/lib/processor.ts`).

JavaScript bitwise operators work on 32-bit integers (`ToInt32`): both
operands are reduced modulo 2^32 and reinterpreted as signed; we model the
bit pattern as a `Nat` below 2^32 and the signed value as an `Int`.
-/

namespace Armul

/-- The bit pattern (as a natural number below 2^32) of a JavaScript number
after `ToInt32`/`ToUint32` conversion. -/
def patternOfInt (x : Int) : Nat := (x % 4294967296).toNat

/-- JavaScript `ToInt32`: reduce modulo 2^32 into the range [-2^31, 2^31). -/
def jsToInt32 (x : Int) : Int :=
  let u := x % 4294967296
  if u < 2147483648 then u else u - 4294967296

/-- JavaScript bitwise complement `~x`: on the 32-bit signed value this is
exactly `-ToInt32(x) - 1`. -/
def jsNot (x : Int) : Int := -(jsToInt32 x) - 1

/-- JavaScript `a << b`: shift the 32-bit value of `a` left by `b mod 32`,
reinterpreted as a signed 32-bit integer (so `1 << 31` is negative). -/
def jsShl (a b : Int) : Int := jsToInt32 (jsToInt32 a * 2 ^ (b.toNat % 32))

/-- JavaScript `(a & b) !== 0`: bitwise and of the two 32-bit patterns,
tested against zero (the signed reinterpretation cannot change zero-ness). -/
def jsAndNeZero (a b : Int) : Bool :=
  Nat.land (patternOfInt a) (patternOfInt b) != 0

/-- Embedded from `condName` (Registers.tsx lines 6-23): the switch maps the
numeric condition codes 0..13 to their two-letter names and falls off the end
(JavaScript `undefined`, here `none`) for every other value, including
14 (AL) and 15 (NV). -/
def condName (cond : Nat) : Option String :=
  match cond with
  | 0 => some "EQ"
  | 1 => some "NE"
  | 2 => some "CS"
  | 3 => some "CC"
  | 4 => some "MI"
  | 5 => some "PL"
  | 6 => some "VS"
  | 7 => some "VC"
  | 8 => some "HI"
  | 9 => some "LS"
  | 10 => some "GE"
  | 11 => some "LT"
  | 12 => some "GT"
  | 13 => some "LE"
  | _ => none

/-- Embedded from `condSatisfied` (Registers.tsx lines 25-50): reads the
N/Z/C/V flags from CPSR bits 31/30/29/28 with `(cpsr & (1 << bit)) !== 0`
and dispatches on the condition name; any unrecognized name (the switch
default) yields `false`. -/
def condSatisfied (cpsr : Nat) (cond : String) : Bool :=
  let n := jsAndNeZero cpsr (jsShl 1 31)
  let z := jsAndNeZero cpsr (jsShl 1 30)
  let c := jsAndNeZero cpsr (jsShl 1 29)
  let v := jsAndNeZero cpsr (jsShl 1 28)
  match cond with
  | "EQ" => z
  | "NE" => !z
  | "CS" => c
  | "CC" => !c
  | "MI" => n
  | "PL" => !n
  | "VS" => v
  | "VC" => !v
  | "HI" => c && !z
  | "LS" => !c || z
  | "GE" => n == v
  | "LT" => n != v
  | "GT" => !z && (n == v)
  | "LE" => z || (n != v)
  | _ => false

/-- The ARM v4 condition table exactly as the claim states it, written
independently of the embedding with `Nat.testBit`: EQ Z; NE not Z; CS C;
CC not C; MI N; PL not N; VS V; VC not V; HI C and not Z; LS not C or Z;
GE N = V; LT N differs from V; GT not Z and N = V; LE Z or N differs from V;
AL always; NV never. -/
def armV4Cond (cond : Nat) (cpsr : Nat) : Bool :=
  let n := cpsr.testBit 31
  let z := cpsr.testBit 30
  let c := cpsr.testBit 29
  let v := cpsr.testBit 28
  match cond with
  | 0 => z
  | 1 => !z
  | 2 => c
  | 3 => !c
  | 4 => n
  | 5 => !n
  | 6 => v
  | 7 => !v
  | 8 => c && !z
  | 9 => !c || z
  | 10 => n == v
  | 11 => n != v
  | 12 => !z && (n == v)
  | 13 => z || (n != v)
  | 14 => true
  | _ => false

theorem patternOfInt_natCast (x : Nat) (hx : x < 4294967296) :
    patternOfInt x = x := by
  unfold patternOfInt
  omega

theorem patternOfInt_jsShl_one (k : Nat) (hk : k < 32) :
    patternOfInt (jsShl 1 k) = 2 ^ k := by
  interval_cases k <;> rfl

theorem jsAndNeZero_shl_one (x k : Nat) (hk : k < 32) (hx : x < 4294967296) :
    jsAndNeZero x (jsShl 1 k) = x.testBit k := by
  unfold jsAndNeZero
  rw [patternOfInt_natCast x hx, patternOfInt_jsShl_one k hk]
  have h := Nat.and_two_pow x k
  rw [show Nat.land x (2 ^ k) = x &&& 2 ^ k from rfl, h]
  cases hb : x.testBit k <;> simp [hb]

/-- C1 (amended). For every condition code 0..13 and every 32-bit CPSR value,
the displayed condition check agrees with the ARM v4 table (EQ Z; NE not Z;
CS C; CC not C; MI N; PL not N; VS V; VC not V; HI C and not Z; LS not C or Z;
GE N = V; LT N differs from V; GT not Z and N = V; LE Z or N differs from V).
Condition codes 14 (AL) and 15 (NV) are given no name by `condName`, so the
UI evaluates and displays no condition check for them. -/
theorem c1_condition_table (cond cpsr : Nat) (hcpsr : cpsr < 4294967296) :
    (cond ≤ 13 → (condName cond).map (condSatisfied cpsr) = some (armV4Cond cond cpsr))
    ∧ (14 ≤ cond → condName cond = none) := by
  constructor
  · intro hc
    have hn : jsAndNeZero (cpsr : Int) (jsShl 1 31) = cpsr.testBit 31 := by
      exact_mod_cast jsAndNeZero_shl_one cpsr 31 (by norm_num) hcpsr
    have hz : jsAndNeZero (cpsr : Int) (jsShl 1 30) = cpsr.testBit 30 := by
      exact_mod_cast jsAndNeZero_shl_one cpsr 30 (by norm_num) hcpsr
    have hcc : jsAndNeZero (cpsr : Int) (jsShl 1 29) = cpsr.testBit 29 := by
      exact_mod_cast jsAndNeZero_shl_one cpsr 29 (by norm_num) hcpsr
    have hv : jsAndNeZero (cpsr : Int) (jsShl 1 28) = cpsr.testBit 28 := by
      exact_mod_cast jsAndNeZero_shl_one cpsr 28 (by norm_num) hcpsr
    interval_cases cond <;>
      simp [condName, condSatisfied, armV4Cond, hn, hz, hcc, hv]
  · intro hc
    obtain ⟨m, rfl⟩ : ∃ m, cond = m + 14 := ⟨cond - 14, by omega⟩
    rfl

/-- Witness for C1: at condition code 4 (MI) and CPSR with only bit 31 set,
the displayed check is taken. -/
theorem c1_condition_table_witness :
    (condName 4).map (condSatisfied 2147483648) = some true := by
  have h := (c1_condition_table 4 2147483648 (by norm_num)).1 (by norm_num)
  rw [h]
  decide

/-- Counterexample to C1 as stated: the claim requires condition code 14 (AL)
to always hold, but the program gives it no name (`condName 14` is `none`,
so the UI never evaluates it) and its evaluator returns `false` on the name
"AL", while the ARM v4 table of the claim says AL holds at CPSR 0. -/
theorem c1_counterexample :
    condName 14 = none ∧ condSatisfied 0 "AL" = false ∧ armV4Cond 14 0 = true := by
  refine ⟨rfl, ?_, rfl⟩
  rfl

/-- Embedded from the flag display of `Registers` (Registers.tsx lines 61-67):
the two loops highlight the letters N, Z, C, V (bits 31, 30, 29, 28) and
I, F, T (bits 7, 6, 5). -/
def cpsrFlagBits : List (Nat × Char) :=
  [(31, 'N'), (30, 'Z'), (29, 'C'), (28, 'V'), (7, 'I'), (6, 'F'), (5, 'T')]

/-- Embedded from the flag display of `Registers` (Registers.tsx lines 61-67):
each letter is shown lit when `(cpsr & (1 << bit)) !== 0`. -/
def cpsrFlags (cpsr : Nat) : List (Char × Bool) :=
  cpsrFlagBits.map (fun p => (p.2, jsAndNeZero cpsr (jsShl 1 p.1)))

/-- Embedded from the mode display of `Registers` (Registers.tsx lines 69-78):
`cpsr & 0b11111` is matched against the seven recognized mode encodings, with
"??? mode" for everything else. -/
def modeDisplay (cpsr : Nat) : String :=
  match Nat.land (patternOfInt cpsr) 31 with
  | 16 => "USR mode"
  | 17 => "FIQ mode"
  | 18 => "IRQ mode"
  | 19 => "SVC mode"
  | 23 => "ABT mode"
  | 27 => "UND mode"
  | 31 => "SYS mode"
  | _ => "??? mode"

theorem land_thirtyone (y : Nat) : Nat.land y 31 = y % 32 := by
  apply Nat.eq_of_testBit_eq
  intro i
  rw [show Nat.land y 31 = y &&& 31 from rfl, Nat.testBit_and]
  rw [show (31 : Nat) = 2 ^ 5 - 1 from rfl, Nat.testBit_two_pow_sub_one]
  rw [show (32 : Nat) = 2 ^ 5 from rfl, Nat.testBit_mod_two_pow]
  rw [Bool.and_comm]

/-- C2. In the 32-bit CPSR as the UI reads it, bit 31 is N, bit 30 is Z,
bit 29 is C, bit 28 is V; bits 7, 6 and 5 are I, F and T; and the low five
bits hold the mode, whose recognized encodings are exactly 0b10000 USR,
0b10001 FIQ, 0b10010 IRQ, 0b10011 SVC, 0b10111 ABT, 0b11011 UND and
0b11111 SYS; any other five-bit value names no recognized mode. -/
theorem c2_cpsr_layout (cpsr : Nat) (h : cpsr < 4294967296) :
    cpsrFlags cpsr =
      [('N', cpsr.testBit 31), ('Z', cpsr.testBit 30), ('C', cpsr.testBit 29),
       ('V', cpsr.testBit 28), ('I', cpsr.testBit 7), ('F', cpsr.testBit 6),
       ('T', cpsr.testBit 5)]
    ∧ (modeDisplay cpsr ≠ "??? mode" ↔ cpsr % 32 ∈ ([16, 17, 18, 19, 23, 27, 31] : List Nat))
    ∧ (cpsr % 32 = 16 → modeDisplay cpsr = "USR mode")
    ∧ (cpsr % 32 = 17 → modeDisplay cpsr = "FIQ mode")
    ∧ (cpsr % 32 = 18 → modeDisplay cpsr = "IRQ mode")
    ∧ (cpsr % 32 = 19 → modeDisplay cpsr = "SVC mode")
    ∧ (cpsr % 32 = 23 → modeDisplay cpsr = "ABT mode")
    ∧ (cpsr % 32 = 27 → modeDisplay cpsr = "UND mode")
    ∧ (cpsr % 32 = 31 → modeDisplay cpsr = "SYS mode") := by
  constructor
  · simp only [cpsrFlags, cpsrFlagBits, List.map_cons, List.map_nil]
    rw [jsAndNeZero_shl_one cpsr 31 (by norm_num) h,
      jsAndNeZero_shl_one cpsr 30 (by norm_num) h,
      jsAndNeZero_shl_one cpsr 29 (by norm_num) h,
      jsAndNeZero_shl_one cpsr 28 (by norm_num) h,
      jsAndNeZero_shl_one cpsr 7 (by norm_num) h,
      jsAndNeZero_shl_one cpsr 6 (by norm_num) h,
      jsAndNeZero_shl_one cpsr 5 (by norm_num) h]
  · unfold modeDisplay
    rw [patternOfInt_natCast cpsr h, land_thirtyone]
    have hm : cpsr % 32 < 32 := Nat.mod_lt _ (by norm_num)
    generalize hg : cpsr % 32 = m at hm ⊢
    interval_cases m <;> decide

/-- Witness for C2: with only bits 30 (Z) and 28 (V) set and mode bits
0b11111, the flag list marks Z and V and the mode reads SYS. -/
theorem c2_cpsr_layout_witness :
    cpsrFlags 1342177311 =
      [('N', false), ('Z', true), ('C', false), ('V', true), ('I', false),
       ('F', false), ('T', false)]
    ∧ modeDisplay 1342177311 = "SYS mode" := by
  have h := c2_cpsr_layout 1342177311 (by norm_num)
  refine ⟨?_, h.2.2.2.2.2.2.2.2 (by norm_num)⟩
  rw [h.1]
  decide

/-- A slot of the 37-entry physical register file, as the flat `registers`
query lays it out. -/
inductive PhysReg where
  | current (n : Nat)
  | fiq (n : Nat)
  | irq (n : Nat)
  | svc (n : Nat)
  | abt (n : Nat)
  | und (n : Nat)
  | cpsr
  | spsrFiq
  | spsrIrq
  | spsrSvc
  | spsrAbt
  | spsrUnd
deriving DecidableEq

/-- Modelled from the spec: the `registers` query lives in the Rust core,
which is not under src/; the spec fixes a flat array of 37 slots in physical
layout order (current-mode R0..R15, the FIQ R8..R14 bank, the banked R13/R14
of IRQ, SVC, ABT and UND, then CPSR and the five SPSRs) with the CPSR pinned
at index 31 as the UI requires. -/
def registersLayout : List PhysReg :=
  (List.range 16).map PhysReg.current
    ++ (List.range 7).map (fun i => PhysReg.fiq (8 + i))
    ++ [PhysReg.irq 13, PhysReg.irq 14, PhysReg.svc 13, PhysReg.svc 14,
        PhysReg.abt 13, PhysReg.abt 14, PhysReg.und 13, PhysReg.und 14]
    ++ [PhysReg.cpsr, PhysReg.spsrFiq, PhysReg.spsrIrq, PhysReg.spsrSvc,
        PhysReg.spsrAbt, PhysReg.spsrUnd]

/-- Embedded from `newProcessor` (processor.ts lines 43-61): the host-side
mirror starts with `regs: Array(37).fill(0)`. -/
def newProcessorRegs : List Nat := List.replicate 37 0

/-- Embedded from `Registers` (Registers.tsx line 59): the UI reads the CPSR
as `registers.regs[31]`. -/
def uiCpsrIndex : Nat := 31

/-- The CPSR value the UI displays, read from the flat register array. -/
def uiCpsr (regs : List Nat) : Nat := regs.getD uiCpsrIndex 0

/-- C3. The registers query returns a flat array of exactly 37 slots in the
physical layout order, the CPSR is the unique slot at index 31, and that is
the index the UI reads (and the index the host-side 37-slot mirror holds). -/
theorem c3_registers_layout :
    registersLayout.length = 37
    ∧ registersLayout[uiCpsrIndex]? = some PhysReg.cpsr
    ∧ registersLayout.count PhysReg.cpsr = 1
    ∧ registersLayout.indexOf PhysReg.cpsr = uiCpsrIndex
    ∧ newProcessorRegs.length = 37
    ∧ uiCpsr newProcessorRegs = 0 := by
  decide

/-- Embedded from `Status` (Status.tsx line 148): the displayed processor time
is `(nonseq_cycles * 2 + seq_cycles + internal_cycles) / 100` microseconds. -/
def statusProcessorTime (nonseq seq internal : Nat) : ℚ :=
  (nonseq * 2 + seq + internal) / 100

/-- C4. For every value of the three cycle counters, the estimated processor
time reported by the UI equals (2 times nonseq + seq + internal) / 100
microseconds. -/
theorem c4_processor_time (nonseq seq internal : Nat) :
    statusProcessorTime nonseq seq internal = (2 * nonseq + seq + internal : ℚ) / 100
    ∧ 100 * statusProcessorTime nonseq seq internal = 2 * nonseq + seq + internal := by
  unfold statusProcessorTime
  constructor
  · ring
  · field_simp
    ring

/-- Embedded from `performAction`, case "simulation_speed" (AppAction.tsx
lines 214-221): the speed is multiplied by the action's factor, then clamped
below at 1 and above at 512. -/
def simulationSpeedUpdate (speed multiplier : ℚ) : ℚ :=
  let newSpeed := speed * multiplier
  if newSpeed < 1 then 1
  else if newSpeed > 512 then 512
  else newSpeed

/-- A host action, as far as the simulation speed is concerned: a
"simulation_speed" action carrying its multiplier, or any of the other
`AppAction` cases, none of which touches `simulation_speed` (every other
branch of `performAction` spreads `...appState.processor` unchanged). -/
inductive SpeedAction where
  | simSpeed (multiplier : ℚ)
  | other

/-- The simulation speed after one `performAction` dispatch. -/
def speedAfter (speed : ℚ) : SpeedAction → ℚ
  | .simSpeed m => simulationSpeedUpdate speed m
  | .other => speed

/-- Embedded from `newProcessor` (processor.ts lines 43-61):
`simulation_speed: 1`. -/
def initialSimulationSpeed : ℚ := 1

theorem simulationSpeedUpdate_bounds (speed m : ℚ) :
    1 ≤ simulationSpeedUpdate speed m ∧ simulationSpeedUpdate speed m ≤ 512 := by
  unfold simulationSpeedUpdate
  dsimp only
  split_ifs with h1 h2
  · norm_num
  · norm_num
  · constructor <;> linarith

/-- C9. The host-side simulation speed starts at 1, and after any sequence of
actions (each "simulation_speed" action multiplying by its factor and then
clamping, all other actions leaving the speed unchanged) it satisfies
1 ≤ speed ≤ 512. -/
theorem c9_speed_invariant (acts : List SpeedAction) :
    1 ≤ acts.foldl speedAfter initialSimulationSpeed
    ∧ acts.foldl speedAfter initialSimulationSpeed ≤ 512 := by
  suffices h : ∀ s : ℚ, 1 ≤ s → s ≤ 512 →
      1 ≤ acts.foldl speedAfter s ∧ acts.foldl speedAfter s ≤ 512 by
    exact h initialSimulationSpeed (by norm_num [initialSimulationSpeed])
      (by norm_num [initialSimulationSpeed])
  induction acts with
  | nil => exact fun s h1 h2 => ⟨h1, h2⟩
  | cons a rest ih =>
    intro s h1 h2
    rw [List.foldl_cons]
    cases a with
    | simSpeed m =>
      exact ih _ (simulationSpeedUpdate_bounds s m).1 (simulationSpeedUpdate_bounds s m).2
    | other => exact ih s h1 h2

/-- An assembler diagnostic as the host receives it from `load_program`:
a line number and an error message (AppAction.tsx line 118). -/
structure Diagnostic where
  line_number : Nat
  error : String
deriving DecidableEq

/-- Modelled from the spec: the assembler (part of the Rust core, not under
src/) processes the source lines, accumulating a diagnostic for each line in
error; if any line errored, the complete accumulated list is the result,
otherwise the emitted program. Each line is abstracted as either its emitted
chunk or its diagnostic. -/
def assembleLines {α : Type} (ls : List (Except Diagnostic α)) :
    Except (List Diagnostic) (List α) :=
  let ds := ls.filterMap (fun l => match l with | .error d => some d | .ok _ => none)
  if ds.isEmpty then
    .ok (ls.filterMap (fun l => match l with | .ok a => some a | .error _ => none))
  else
    .error ds

/-- The diagnostics accumulated over the source lines, in order. -/
def errsOf {α : Type} (ls : List (Except Diagnostic α)) : List Diagnostic :=
  ls.filterMap (fun l => match l with | .error d => some d | .ok _ => none)

/-- Modelled from the spec: `load_program` replaces the loaded program on
success and leaves it unchanged on error, returning the diagnostics
synchronously as the error result. -/
def load_program {π : Type} (prev : Option π) (result : Except (List Diagnostic) π) :
    Option π × Except (List Diagnostic) Unit :=
  match result with
  | .ok p => (some p, .ok ())
  | .error ds => (prev, .error ds)

/-- Embedded from `performOpenFile` (AppAction.tsx lines 118-127): the error
result is a list whose every element carries `line_number` and `error`, shown
as one line each. -/
def renderDiagnostic (d : Diagnostic) : String :=
  "Line " ++ toString d.line_number ++ ": " ++ d.error

/-- C7. `load_program` returns Ok on success; on any assembly error the
program is not loaded (the previously loaded program is kept) and the
complete accumulated list of diagnostics is returned synchronously as the
error result, each diagnostic carrying its line number and message. -/
theorem c7_load_program {α : Type} (prev : Option (List α))
    (ls : List (Except Diagnostic α)) :
    (errsOf ls ≠ [] →
      load_program prev (assembleLines ls) = (prev, .error (errsOf ls)))
    ∧ (errsOf ls = [] →
      (load_program prev (assembleLines ls)).2 = .ok ()
        ∧ ∃ p, (load_program prev (assembleLines ls)).1 = some p)
    ∧ (∀ d ∈ errsOf ls,
      renderDiagnostic d = "Line " ++ toString d.line_number ++ ": " ++ d.error) := by
  refine ⟨?_, ?_, fun d _ => rfl⟩
  · intro h
    unfold load_program assembleLines errsOf at *
    rw [if_neg (by simpa [List.isEmpty_iff] using h)]
  · intro h
    unfold load_program assembleLines errsOf at *
    rw [if_pos (by simpa [List.isEmpty_iff] using h)]
    exact ⟨rfl, _, rfl⟩

/-- Witness for C7: with one good line and two diagnostics, the previously
loaded program is kept and both diagnostics come back in order. -/
theorem c7_load_program_witness :
    load_program (some [42])
        (assembleLines [Except.ok 42, Except.error ⟨3, "bad"⟩, Except.error ⟨5, "worse"⟩])
      = (some [42], .error [⟨3, "bad"⟩, ⟨5, "worse"⟩]) := by
  have h := (c7_load_program (some [42])
    [Except.ok 42, Except.error ⟨3, "bad"⟩, Except.error ⟨5, "worse"⟩]).1 (by decide)
  rw [h]
  rfl

/-- The run state carried inside the Ok variant of `processor_info().state`
(processor.ts / part_005 line 26). -/
inductive RunSt where
  | Running
  | Stopped
deriving DecidableEq

/-- A backend command the host can invoke (the Tauri `invoke` names appearing
in src/). -/
inductive Cmd where
  | step_once
  | step_times (steps : Nat)
  | processor_info
  | registers
  | hit_breakpoint
deriving DecidableEq

/-- The backend (the Rust core) as the play loop observes it: `step_once`
returns the optional new user input, `processor_info` the run state,
`registers` the flat register array, and `hit_breakpoint` acknowledges a
breakpoint. -/
structure Backend (σ : Type) where
  step_once : σ → σ × Option String
  processor_info : σ → Except String RunSt
  regs : σ → List Nat
  hit_breakpoint : σ → σ

/-- What one `singleStep` batch of the play loop produces: the backend state
it left behind, how many `step_once` commands it issued, whether it decided
to stop playing, the last user input it saw, and the full command trace. -/
structure BatchResult (σ : Type) where
  core : σ
  steps : Nat
  shouldStop : Bool
  newUserInput : Option String
  trace : List Cmd

/-- Embedded from the loop body (AppAction.tsx lines 243-244): a defined
`nextUserInput` overwrites the accumulated one. -/
def updUi (ui next : Option String) : Option String :=
  match next with
  | some t => some t
  | none => ui

/-- The backend state after one `step_once` command. -/
def stepOnceState {σ : Type} (B : Backend σ) (c : σ) : σ := (B.step_once c).1

deriving instance DecidableEq for Except

/-- Embedded from the `for` loop of `singleStep` in `play` (AppAction.tsx
lines 240-259): per iteration, invoke `step_once`; invoke `processor_info`
and stop unless the state is Ok("Running") (the code tests
`!('Ok' in info.state) || info.state.Ok != "Running"`); invoke `registers`
and, if regs[15] is in the breakpoint set, invoke `hit_breakpoint` and stop.
The fuel is the remaining iteration count. -/
def playBatchAux {σ : Type} (B : Backend σ) (bps : List Nat) :
    Nat → σ → Option String → BatchResult σ
  | 0, c, ui => ⟨c, 0, false, ui, []⟩
  | fuel + 1, c, ui =>
    if B.processor_info (stepOnceState B c) = .ok .Running then
      if (B.regs (stepOnceState B c)).getD 15 0 ∈ bps then
        ⟨B.hit_breakpoint (stepOnceState B c), 1, true, updUi ui (B.step_once c).2,
          [.step_once, .processor_info, .registers, .hit_breakpoint]⟩
      else
        ⟨(playBatchAux B bps fuel (stepOnceState B c) (updUi ui (B.step_once c).2)).core,
         (playBatchAux B bps fuel (stepOnceState B c) (updUi ui (B.step_once c).2)).steps + 1,
         (playBatchAux B bps fuel (stepOnceState B c) (updUi ui (B.step_once c).2)).shouldStop,
         (playBatchAux B bps fuel (stepOnceState B c) (updUi ui (B.step_once c).2)).newUserInput,
         .step_once :: .processor_info :: .registers ::
           (playBatchAux B bps fuel (stepOnceState B c) (updUi ui (B.step_once c).2)).trace⟩
    else ⟨stepOnceState B c, 1, true, updUi ui (B.step_once c).2,
        [.step_once, .processor_info]⟩

/-- One batch of the play loop, as `singleStep` runs it with
`processor.simulation_speed` iterations (AppAction.tsx lines 238-259). -/
def playBatch {σ : Type} (B : Backend σ) (bps : List Nat) (k : Nat) (c : σ) :
    BatchResult σ :=
  playBatchAux B bps k c none

/-- The backend state after `n` `step_once` commands. -/
def coreIter {σ : Type} (B : Backend σ) : Nat → σ → σ
  | 0, c => c
  | n + 1, c => coreIter B n (stepOnceState B c)

/-- The value of regs[15] (the program counter slot the loop checks) after
`j` steps. -/
def pcAt {σ : Type} (B : Backend σ) (c : σ) (j : Nat) : Nat :=
  (B.regs (coreIter B j c)).getD 15 0

/-- The loop's continuation condition after step `j`: the run state is still
Ok Running and the program counter is not at a breakpoint. -/
def batchContinues {σ : Type} (B : Backend σ) (bps : List Nat) (c : σ) (j : Nat) : Prop :=
  B.processor_info (coreIter B j c) = .ok .Running ∧ pcAt B c j ∉ bps

instance {σ : Type} (B : Backend σ) (bps : List Nat) (c : σ) (j : Nat) :
    Decidable (batchContinues B bps c j) :=
  inferInstanceAs (Decidable (_ ∧ _))

theorem coreIter_succ_outer {σ : Type} (B : Backend σ) (n : Nat) (c : σ) :
    coreIter B (n + 1) c = coreIter B n (stepOnceState B c) := rfl

theorem batchContinues_succ {σ : Type} (B : Backend σ) (bps : List Nat) (c : σ) (j : Nat) :
    batchContinues B bps c (j + 1) ↔ batchContinues B bps (stepOnceState B c) j :=
  Iff.rfl

theorem playBatchAux_spec {σ : Type} (B : Backend σ) (bps : List Nat) :
    ∀ (k : Nat) (c : σ) (ui : Option String),
      (playBatchAux B bps k c ui).steps ≤ k
      ∧ (playBatchAux B bps k c ui).trace.count Cmd.step_once
          = (playBatchAux B bps k c ui).steps
      ∧ (∀ n, Cmd.step_times n ∉ (playBatchAux B bps k c ui).trace)
      ∧ ((playBatchAux B bps k c ui).shouldStop = false ↔
          ∀ j, 1 ≤ j → j ≤ k → batchContinues B bps c j)
      ∧ ((playBatchAux B bps k c ui).shouldStop = false →
          (playBatchAux B bps k c ui).steps = k) := by
  intro k
  induction k with
  | zero =>
    intro c ui
    refine ⟨Nat.le_refl 0, rfl, ?_, ?_, fun _ => rfl⟩
    · intro m h
      exact absurd h (List.not_mem_nil _)
    · constructor
      · intro _ j h1 h2
        omega
      · intro _
        rfl
  | succ n ih =>
    intro c ui
    by_cases hrun : B.processor_info (stepOnceState B c) = Except.ok RunSt.Running
    · by_cases hbp : (B.regs (stepOnceState B c)).getD 15 0 ∈ bps
      · have hres : playBatchAux B bps (n + 1) c ui =
            ⟨B.hit_breakpoint (stepOnceState B c), 1, true, updUi ui (B.step_once c).2,
              [.step_once, .processor_info, .registers, .hit_breakpoint]⟩ := by
          simp only [playBatchAux]
          rw [if_pos hrun, if_pos hbp]
        rw [hres]
        refine ⟨by show 1 ≤ n + 1; omega, rfl, by intro m h; simp at h, ?_, by simp⟩
        simp only [show (true = false) ↔ False by simp, false_iff]
        intro hall
        exact (hall 1 (by omega) (by omega)).2 hbp
      · have hres : playBatchAux B bps (n + 1) c ui =
            ⟨(playBatchAux B bps n (stepOnceState B c) (updUi ui (B.step_once c).2)).core,
             (playBatchAux B bps n (stepOnceState B c) (updUi ui (B.step_once c).2)).steps + 1,
             (playBatchAux B bps n (stepOnceState B c) (updUi ui (B.step_once c).2)).shouldStop,
             (playBatchAux B bps n (stepOnceState B c) (updUi ui (B.step_once c).2)).newUserInput,
             .step_once :: .processor_info :: .registers ::
               (playBatchAux B bps n (stepOnceState B c) (updUi ui (B.step_once c).2)).trace⟩ := by
          simp only [playBatchAux]
          rw [if_pos hrun, if_neg hbp]
        obtain ⟨ih1, ih2, ih3, ih4, ih5⟩ :=
          ih (stepOnceState B c) (updUi ui (B.step_once c).2)
        rw [hres]
        refine ⟨?_, ?_, ?_, ?_, ?_⟩
        · show _ + 1 ≤ n + 1
          omega
        · show List.count _ (_ :: _ :: _ :: _) = _
          rw [List.count_cons_self,
            List.count_cons_of_ne (by decide : Cmd.step_once ≠ Cmd.processor_info),
            List.count_cons_of_ne (by decide : Cmd.step_once ≠ Cmd.registers), ih2]
        · intro m
          simp only [List.mem_cons]
          rintro (h | h | h | h)
          · exact Cmd.noConfusion h
          · exact Cmd.noConfusion h
          · exact Cmd.noConfusion h
          · exact ih3 m h
        · show _ = false ↔ _
          rw [ih4]
          constructor
          · intro hall j h1 h2
            match j, h1 with
            | 1, _ =>
              exact ⟨hrun, hbp⟩
            | (i + 2), _ =>
              exact (batchContinues_succ B bps c (i + 1)).mpr
                (hall (i + 1) (by omega) (by omega))
          · intro hall j h1 h2
            exact (batchContinues_succ B bps c j).mp (hall (j + 1) (by omega) (by omega))
        · show _ = false → _ + 1 = n + 1
          intro hstop
          rw [ih5 hstop]
    · have hres : playBatchAux B bps (n + 1) c ui =
          ⟨stepOnceState B c, 1, true, updUi ui (B.step_once c).2,
            [.step_once, .processor_info]⟩ := by
        simp only [playBatchAux]
        rw [if_neg hrun]
      rw [hres]
      refine ⟨by show 1 ≤ n + 1; omega, rfl, by intro m h; simp at h, ?_, by simp⟩
      simp only [show (true = false) ↔ False by simp, false_iff]
      intro hall
      exact hrun (hall 1 (by omega) (by omega)).1

/-- Embedded from `stepOnce` (Status.tsx lines 13-23): the single-step button
does nothing while playing, and otherwise invokes `step_times` with
`steps: 1`. -/
def stepOnceCmds (playing : Bool) : List Cmd :=
  if playing then [] else [.step_times 1]

/-- Whether a command is a `step_times` invocation. -/
def Cmd.isStepTimes : Cmd → Bool
  | .step_times _ => true
  | _ => false

/-- C5 (amended). While playing, the host drives the run loop itself: each
batch invokes the core's single-instruction command `step_once` up to
k = simulation_speed times (never `step_times`), counting one executed
instruction per invocation, and stops early exactly when the run state is no
longer Ok("Running") or the program counter lands on a breakpoint; a batch
that never meets either condition runs all k steps. (The single-step button,
by contrast, invokes `step_times` with steps = 1.) -/
theorem c5_play_batches {σ : Type} (B : Backend σ) (bps : List Nat) (k : Nat) (c : σ) :
    (playBatch B bps k c).steps ≤ k
    ∧ (playBatch B bps k c).trace.count Cmd.step_once = (playBatch B bps k c).steps
    ∧ (∀ m, Cmd.step_times m ∉ (playBatch B bps k c).trace)
    ∧ ((playBatch B bps k c).shouldStop = false ↔
        ∀ j, 1 ≤ j → j ≤ k → batchContinues B bps c j)
    ∧ ((playBatch B bps k c).shouldStop = false → (playBatch B bps k c).steps = k)
    ∧ stepOnceCmds false = [Cmd.step_times 1]
    ∧ stepOnceCmds true = [] := by
  obtain ⟨h1, h2, h3, h4, h5⟩ := playBatchAux_spec B bps k c none
  exact ⟨h1, h2, h3, h4, h5, rfl, rfl⟩

/-- A concrete backend for evaluating the play loop: the program counter in
regs[15] advances by 4 per step and the state stays Ok Running. -/
def demoBackend : Backend Nat where
  step_once := fun c => (c + 4, none)
  processor_info := fun _ => .ok .Running
  regs := fun c => List.replicate 15 0 ++ [c]
  hit_breakpoint := id

/-- Counterexample to C5 as stated: the claim says the host drives the run
loop by calling `step_times(k)`, but a batch of the play loop with
k = simulation_speed = 2 issues the command trace
step_once, processor_info, registers, step_once, processor_info, registers —
two `step_once` invocations and no `step_times` invocation at all. -/
theorem c5_counterexample :
    (playBatch demoBackend [] 2 0).trace
        = [.step_once, .processor_info, .registers,
           .step_once, .processor_info, .registers]
    ∧ (playBatch demoBackend [] 2 0).steps = 2
    ∧ (playBatch demoBackend [] 2 0).trace.all (fun cmd => ! cmd.isStepTimes) = true := by
  decide

theorem playBatchAux_first_hit {σ : Type} (B : Backend σ) (bps : List Nat) :
    ∀ (j k : Nat) (c : σ) (ui : Option String),
      j + 1 ≤ k →
      (∀ i, i ≤ j → 1 ≤ i → batchContinues B bps c i) →
      B.processor_info (coreIter B (j + 1) c) = .ok .Running →
      pcAt B c (j + 1) ∈ bps →
      (playBatchAux B bps k c ui).core = B.hit_breakpoint (coreIter B (j + 1) c)
      ∧ (playBatchAux B bps k c ui).steps = j + 1
      ∧ (playBatchAux B bps k c ui).shouldStop = true
      ∧ Cmd.hit_breakpoint ∈ (playBatchAux B bps k c ui).trace := by
  intro j
  induction j with
  | zero =>
    intro k c ui hjk hbefore hrun hhit
    obtain ⟨m, rfl⟩ : ∃ m, k = m + 1 := ⟨k - 1, by omega⟩
    have hrun2 : B.processor_info (stepOnceState B c) = Except.ok RunSt.Running := hrun
    have hhit2 : (B.regs (stepOnceState B c)).getD 15 0 ∈ bps := hhit
    have hres : playBatchAux B bps (m + 1) c ui =
        ⟨B.hit_breakpoint (stepOnceState B c), 1, true, updUi ui (B.step_once c).2,
          [.step_once, .processor_info, .registers, .hit_breakpoint]⟩ := by
      simp only [playBatchAux]
      rw [if_pos hrun2, if_pos hhit2]
    rw [hres]
    exact ⟨rfl, rfl, rfl, by simp⟩
  | succ i ih =>
    intro k c ui hjk hbefore hrun hhit
    obtain ⟨m, rfl⟩ : ∃ m, k = m + 1 := ⟨k - 1, by omega⟩
    obtain ⟨hrun0, hbp0⟩ := hbefore 1 (by omega) (by omega)
    have hrun1 : B.processor_info (stepOnceState B c) = Except.ok RunSt.Running := hrun0
    have hbp1 : (B.regs (stepOnceState B c)).getD 15 0 ∉ bps := hbp0
    have hres : playBatchAux B bps (m + 1) c ui =
        ⟨(playBatchAux B bps m (stepOnceState B c) (updUi ui (B.step_once c).2)).core,
         (playBatchAux B bps m (stepOnceState B c) (updUi ui (B.step_once c).2)).steps + 1,
         (playBatchAux B bps m (stepOnceState B c) (updUi ui (B.step_once c).2)).shouldStop,
         (playBatchAux B bps m (stepOnceState B c) (updUi ui (B.step_once c).2)).newUserInput,
         .step_once :: .processor_info :: .registers ::
           (playBatchAux B bps m (stepOnceState B c) (updUi ui (B.step_once c).2)).trace⟩ := by
      simp only [playBatchAux]
      rw [if_pos hrun1, if_neg hbp1]
    have hnext := ih m (stepOnceState B c) (updUi ui (B.step_once c).2)
      (by omega)
      (fun i2 hi2 hi1 => (batchContinues_succ B bps c i2).mp
        (hbefore (i2 + 1) (by omega) (by omega)))
      hrun hhit
    rw [hres]
    obtain ⟨hc1, hc2, hc3, hc4⟩ := hnext
    refine ⟨hc1, ?_, hc3, ?_⟩
    · show _ + 1 = i + 1 + 1
      rw [hc2]
    · show Cmd.hit_breakpoint ∈ _ :: _ :: _ :: _
      simp only [List.mem_cons]
      exact Or.inr (Or.inr (Or.inr hc4))

theorem playBatchAux_steps_pos {σ : Type} (B : Backend σ) (bps : List Nat)
    (k : Nat) (c : σ) (ui : Option String) (hk : 1 ≤ k) :
    1 ≤ (playBatchAux B bps k c ui).steps := by
  cases k with
  | zero => omega
  | succ n =>
    simp only [playBatchAux]
    split_ifs <;> (dsimp only) <;> omega

/-- Modelled from the spec: the observable stepping state of the Rust core
(which is not under src/): its run state (Running or Stopped), the program
counter, the count of retired instructions, and the one-shot breakpoint
acknowledgement flag of section 4.4. -/
structure SpecCore where
  running : Bool
  pc : Nat
  retired : Nat
  acked : Bool
deriving DecidableEq

/-- Modelled from the spec: `step_once` retires exactly one instruction,
moving the program counter by the program's transition function `next`; a
core stopped by an acknowledged breakpoint resumes on the next step (the
one-shot suppression of section 4.4: resuming does not re-stop before the
instruction at the breakpoint executes); a core stopped otherwise stays
stopped. -/
def specStepOnce (next : Nat → Nat) (c : SpecCore) : SpecCore :=
  if c.running then ⟨true, next c.pc, c.retired + 1, false⟩
  else if c.acked then ⟨true, next c.pc, c.retired + 1, false⟩
  else c

/-- Modelled from the spec: `hit_breakpoint` acknowledges the breakpoint the
host just observed and transitions Running to Stopped, retiring nothing. -/
def specHitBreakpoint (c : SpecCore) : SpecCore := ⟨false, c.pc, c.retired, true⟩

/-- Modelled from the spec: `processor_info().state` is Ok("Running") or
Ok("Stopped"). -/
def specInfo (c : SpecCore) : Except String RunSt :=
  if c.running then .ok .Running else .ok .Stopped

/-- Modelled from the spec: the flat 37-slot register array with the program
counter in slot 15 (current-mode R15). -/
def specRegs (c : SpecCore) : List Nat :=
  List.replicate 15 0 ++ [c.pc] ++ List.replicate 21 0

/-- The spec-modelled core packaged as the backend the play loop drives. -/
def specBackend (next : Nat → Nat) : Backend SpecCore where
  step_once := fun c => (specStepOnce next c, none)
  processor_info := specInfo
  regs := specRegs
  hit_breakpoint := specHitBreakpoint

theorem specRegs_pc (c : SpecCore) : (specRegs c).getD 15 0 = c.pc := rfl

/-- C6. If, while running, the program counter lands on a breakpoint for the
first time after step j+1 of a batch (with budget to continue), then the
batch stops right there: exactly j+1 instructions retired, `hit_breakpoint`
invoked, the core Stopped with its program counter parked on the breakpoint
address and the instruction at that address not retired; and resuming
executes that instruction (one more retirement, back to Running) rather than
immediately re-stopping — indeed any resumed batch with a positive budget
retires at least one instruction before any stop. -/
theorem c6_breakpoint_stop (next : Nat → Nat) (bps : List Nat) (k j : Nat) (c : SpecCore)
    (hjk : j + 1 ≤ k)
    (hbefore : ∀ i, i ≤ j → 1 ≤ i → batchContinues (specBackend next) bps c i)
    (hrun : (specBackend next).processor_info (coreIter (specBackend next) (j + 1) c)
      = .ok .Running)
    (hhit : pcAt (specBackend next) c (j + 1) ∈ bps) :
    (playBatch (specBackend next) bps k c).shouldStop = true
    ∧ (playBatch (specBackend next) bps k c).steps = j + 1
    ∧ (playBatch (specBackend next) bps k c).core
        = specHitBreakpoint (coreIter (specBackend next) (j + 1) c)
    ∧ (playBatch (specBackend next) bps k c).core.running = false
    ∧ (playBatch (specBackend next) bps k c).core.retired
        = (coreIter (specBackend next) (j + 1) c).retired
    ∧ (playBatch (specBackend next) bps k c).core.pc = pcAt (specBackend next) c (j + 1)
    ∧ Cmd.hit_breakpoint ∈ (playBatch (specBackend next) bps k c).trace
    ∧ (specStepOnce next (playBatch (specBackend next) bps k c).core).retired
        = (playBatch (specBackend next) bps k c).core.retired + 1
    ∧ (specStepOnce next (playBatch (specBackend next) bps k c).core).running = true
    ∧ (specStepOnce next (playBatch (specBackend next) bps k c).core).pc
        = next (pcAt (specBackend next) c (j + 1))
    ∧ (∀ (kr : Nat) (cr : SpecCore), 1 ≤ kr →
        1 ≤ (playBatch (specBackend next) bps kr cr).steps) := by
  obtain ⟨hc1, hc2, hc3, hc4⟩ :=
    playBatchAux_first_hit (specBackend next) bps j k c none hjk
      (fun i hi h1 => hbefore i hi h1) hrun hhit
  have hcore : (playBatch (specBackend next) bps k c).core
      = specHitBreakpoint (coreIter (specBackend next) (j + 1) c) := hc1
  have hpc : pcAt (specBackend next) c (j + 1)
      = (coreIter (specBackend next) (j + 1) c).pc :=
    specRegs_pc (coreIter (specBackend next) (j + 1) c)
  refine ⟨hc3, hc2, hcore, ?_, ?_, ?_, hc4, ?_, ?_, ?_, ?_⟩
  · rw [hcore]
    rfl
  · rw [hcore]
    rfl
  · rw [hcore, hpc]
    rfl
  · rw [hcore]
    rfl
  · rw [hcore]
    rfl
  · rw [hcore, hpc]
    rfl
  · intro kr cr hkr
    exact playBatchAux_steps_pos (specBackend next) bps kr cr none hkr

/-- Witness for C6: stepping from pc 0 in steps of 4 with a breakpoint at 8
and budget 5, the batch stops after exactly 2 retirements with the core
Stopped at pc 8, and resuming retires the instruction at 8. -/
theorem c6_breakpoint_stop_witness :
    (playBatch (specBackend (fun a => a + 4)) [8] 5 ⟨true, 0, 0, false⟩).shouldStop = true
    ∧ (playBatch (specBackend (fun a => a + 4)) [8] 5 ⟨true, 0, 0, false⟩).steps = 2
    ∧ (playBatch (specBackend (fun a => a + 4)) [8] 5 ⟨true, 0, 0, false⟩).core.running = false
    ∧ (specStepOnce (fun a => a + 4)
        (playBatch (specBackend (fun a => a + 4)) [8] 5 ⟨true, 0, 0, false⟩).core).running
      = true := by
  have h := c6_breakpoint_stop (fun a => a + 4) [8] 5 1 ⟨true, 0, 0, false⟩
    (by omega) (by decide) (by decide) (by decide)
  exact ⟨h.1, h.2.1, h.2.2.2.1, h.2.2.2.2.2.2.2.2.1⟩

/-- Embedded from `registerToString` (MemoryRow.tsx lines 75-82): registers
13, 14 and 15 are named SP, LR and PC; every other register n is named Rn. -/
def registerToString (register : Int) : String :=
  if register = 13 then "SP"
  else if register = 14 then "LR"
  else if register = 15 then "PC"
  else "R" ++ toString register

/-- One iteration of the loop in `registerRanges` (MemoryRow.tsx lines
65-71): if the accumulated list of ranges ends in a range whose end is
exactly one less than the next register, extend that range; otherwise push a
fresh single-register range. -/
def rrStep (acc : List (Int × Int)) (r : Int) : List (Int × Int) :=
  match acc.getLast? with
  | some p => if p.2 = r - 1 then acc.dropLast ++ [(p.1, r)] else acc ++ [(r, r)]
  | none => acc ++ [(r, r)]

/-- The ranges `registerRanges` accumulates before rendering (MemoryRow.tsx
lines 63-72). -/
def rangesOf (registers : List Int) : List (Int × Int) :=
  registers.foldl rrStep []

/-- Embedded from `registerRanges` (MemoryRow.tsx lines 63-73): render each
range as a single register name when start = end, else "start-end". -/
def registerRanges (registers : List Int) : List String :=
  (rangesOf registers).map (fun p =>
    if p.1 = p.2 then registerToString p.1
    else registerToString p.1 ++ "-" ++ registerToString p.2)

/-- The register-naming rule as the claim states it: registers 13, 14 and 15
are named SP, LR and PC and every other register n is named Rn. -/
def regNameSpec (r : Int) : String :=
  if r = 13 then "SP"
  else if r = 14 then "LR"
  else if r = 15 then "PC"
  else "R" ++ toString r

theorem registerToString_eq_spec (r : Int) : registerToString r = regNameSpec r := rfl

/-- The closed integer interval [s, e] as a list. -/
def intervalInts (s e : Int) : List Int :=
  (List.range (e + 1 - s).toNat).map (fun i : Nat => s + (i : Int))

/-- A structural recursion equivalent to the `registerRanges` loop: the run
currently being built is (s, e), and the remaining input is processed. -/
def runsAux (s e : Int) : List Int → List (Int × Int)
  | [] => [(s, e)]
  | r :: rest => if e = r - 1 then runsAux s r rest else (s, e) :: runsAux r r rest

theorem runsAux_cons (s e r : Int) (rest : List Int) :
    runsAux s e (r :: rest)
      = if e = r - 1 then runsAux s r rest else (s, e) :: runsAux r r rest := rfl

theorem foldl_rrStep (l : List Int) : ∀ (acc : List (Int × Int)) (s e : Int),
    List.foldl rrStep (acc ++ [(s, e)]) l = acc ++ runsAux s e l := by
  induction l with
  | nil =>
    intro acc s e
    simp [runsAux]
  | cons r rest ih =>
    intro acc s e
    rw [List.foldl_cons]
    have hstep : rrStep (acc ++ [(s, e)]) r =
        if e = r - 1 then acc ++ [(s, r)] else (acc ++ [(s, e)]) ++ [(r, r)] := by
      simp only [rrStep, List.getLast?_concat]
      by_cases h : e = r - 1
      · rw [if_pos h, if_pos h, List.dropLast_concat]
      · rw [if_neg h, if_neg h]
    rw [hstep]
    by_cases h : e = r - 1
    · rw [if_pos h, ih acc s r, runsAux_cons, if_pos h]
    · rw [if_neg h, ih (acc ++ [(s, e)]) r r, runsAux_cons, if_neg h]
      simp

theorem rangesOf_nil : rangesOf [] = [] := rfl

theorem rangesOf_cons (r : Int) (rest : List Int) :
    rangesOf (r :: rest) = runsAux r r rest := by
  unfold rangesOf
  rw [List.foldl_cons]
  rw [show rrStep [] r = [] ++ [(r, r)] from rfl]
  rw [foldl_rrStep rest [] r r]
  simp

theorem intervalInts_single (r : Int) : intervalInts r r = [r] := by
  unfold intervalInts
  rw [show (r + 1 - r : Int) = 1 by ring]
  rw [show ((1 : Int)).toNat = 1 from rfl, show List.range 1 = [0] from rfl]
  simp only [List.map_cons, List.map_nil, Nat.cast_zero, add_zero]

theorem intervalInts_extend (s e : Int) (hse : s ≤ e) :
    intervalInts s (e + 1) = intervalInts s e ++ [e + 1] := by
  unfold intervalInts
  have h1 : (e + 1 + 1 - s).toNat = (e + 1 - s).toNat + 1 := by omega
  rw [h1, List.range_succ, List.map_append]
  congr 1
  simp only [List.map_cons, List.map_nil, List.cons.injEq, and_true]
  omega

theorem runsAux_flatten (l : List Int) : ∀ (s e : Int), s ≤ e →
    List.Chain (· < ·) e l →
    ((runsAux s e l).map (fun p => intervalInts p.1 p.2)).flatten
      = intervalInts s e ++ l := by
  induction l with
  | nil =>
    intro s e _ _
    simp [runsAux]
  | cons r rest ih =>
    intro s e hse hch
    rw [List.chain_cons] at hch
    obtain ⟨her, hch⟩ := hch
    rw [runsAux_cons]
    by_cases h : e = r - 1
    · rw [if_pos h, ih s r (by omega) hch]
      rw [show intervalInts s r = intervalInts s e ++ [e + 1] by
        rw [show r = e + 1 by omega]
        exact intervalInts_extend s e hse]
      simp only [List.append_assoc, List.singleton_append]
      rw [show e + 1 = r by omega]
    · rw [if_neg h, List.map_cons, List.flatten_cons, ih r r (le_refl r) hch,
        intervalInts_single]
      rfl

theorem runsAux_wf (l : List Int) : ∀ (s e : Int), s ≤ e →
    List.Chain (· < ·) e l → ∀ p ∈ runsAux s e l, p.1 ≤ p.2 := by
  induction l with
  | nil =>
    intro s e hse _ p hp
    rw [runsAux, List.mem_singleton] at hp
    rw [hp]
    exact hse
  | cons r rest ih =>
    intro s e hse hch p hp
    rw [List.chain_cons] at hch
    rw [runsAux_cons] at hp
    by_cases h : e = r - 1
    · rw [if_pos h] at hp
      exact ih s r (by omega) hch.2 p hp
    · rw [if_neg h] at hp
      rcases List.mem_cons.mp hp with h1 | h1
      · rw [h1]
        exact hse
      · exact ih r r (le_refl r) hch.2 p h1

theorem runsAux_head (l : List Int) : ∀ (s e : Int),
    ∃ q rest2, runsAux s e l = (s, q) :: rest2 := by
  induction l with
  | nil =>
    intro s e
    exact ⟨e, [], rfl⟩
  | cons r rest ih =>
    intro s e
    rw [runsAux_cons]
    by_cases h : e = r - 1
    · rw [if_pos h]
      exact ih s r
    · rw [if_neg h]
      exact ⟨e, _, rfl⟩

theorem runsAux_gaps (l : List Int) : ∀ (s e : Int), List.Chain (· < ·) e l →
    List.Chain' (fun p q => p.2 + 1 < q.1) (runsAux s e l) := by
  induction l with
  | nil =>
    intro s e _
    exact List.chain'_singleton _
  | cons r rest ih =>
    intro s e hch
    rw [List.chain_cons] at hch
    obtain ⟨her, hch⟩ := hch
    rw [runsAux_cons]
    by_cases h : e = r - 1
    · rw [if_pos h]
      exact ih s r hch
    · rw [if_neg h]
      obtain ⟨q, rest2, heq⟩ := runsAux_head rest r r
      rw [heq]
      refine List.chain'_cons.mpr ⟨?_, heq ▸ ih r r hch⟩
      show e + 1 < r
      omega

/-- C8. For every strictly ascending list of register indices in 0..15,
`registerRanges` partitions the list into maximal runs of consecutive
indices, in order: concatenating the ranges recovers exactly the input;
every range is well-formed (start ≤ end); consecutive ranges are separated
by a gap (end + 1 < next start, so each run is maximal); and each range is
rendered as the single register's name when it has length one and as
"first-last" otherwise, with registers 13, 14 and 15 named SP, LR, PC and
every other register n named Rn. -/
theorem c8_register_ranges (l : List Int)
    (hasc : List.Chain' (· < ·) l)
    (hmem : ∀ r ∈ l, 0 ≤ r ∧ r < 16) :
    ((rangesOf l).map (fun p => intervalInts p.1 p.2)).flatten = l
    ∧ (∀ p ∈ rangesOf l, p.1 ≤ p.2)
    ∧ List.Chain' (fun p q => p.2 + 1 < q.1) (rangesOf l)
    ∧ registerRanges l =
        (rangesOf l).map (fun p =>
          if p.1 = p.2 then regNameSpec p.1
          else regNameSpec p.1 ++ "-" ++ regNameSpec p.2) := by
  have hrender : registerRanges l =
      (rangesOf l).map (fun p =>
        if p.1 = p.2 then regNameSpec p.1
        else regNameSpec p.1 ++ "-" ++ regNameSpec p.2) := by
    unfold registerRanges
    simp only [registerToString_eq_spec]
  cases l with
  | nil =>
    exact ⟨rfl, by simp [rangesOf_nil], by rw [rangesOf_nil]; exact List.chain'_nil,
      hrender⟩
  | cons r rest =>
    have hch : List.Chain (· < ·) r rest := hasc
    rw [rangesOf_cons]
    refine ⟨?_, runsAux_wf rest r r (le_refl r) hch,
      runsAux_gaps rest r r hch, ?_⟩
    · rw [runsAux_flatten rest r r (le_refl r) hch, intervalInts_single]
      rfl
    · rw [rangesOf_cons] at hrender
      exact hrender

/-- Witness for C8: the ascending list [0,1,2,5,13,14,15] is partitioned into
the runs 0-2, 5 and 13-15, rendered "R0-R2", "R5", "SP-PC". -/
theorem c8_register_ranges_witness :
    ((rangesOf [0, 1, 2, 5, 13, 14, 15]).map (fun p => intervalInts p.1 p.2)).flatten
        = [0, 1, 2, 5, 13, 14, 15]
    ∧ registerRanges [0, 1, 2, 5, 13, 14, 15] = ["R0-R2", "R5", "SP-PC"] := by
  have h := c8_register_ranges [0, 1, 2, 5, 13, 14, 15]
    (by norm_num [List.chain'_cons]) (by decide)
  refine ⟨h.1, ?_⟩
  rw [h.2.2.2]
  rfl

/-- The non-breaking space ( ) that `renderNumber` substitutes for the
padding spaces. -/
def nbsp : Char := Char.ofNat 160

/-- JavaScript `String.padStart(11)`: pad with spaces on the left up to
length 11. -/
def padStart11 (s : String) : String :=
  if s.length < 11 then String.mk (List.replicate (11 - s.length) ' ') ++ s else s

/-- JavaScript `.replace(/ /g, " ")` on the padded string. -/
def nbspOfSpaces (s : String) : String :=
  String.mk (s.data.map (fun ch => if ch = ' ' then nbsp else ch))

/-- Embedded from `renderNumber` (MemoryRow.tsx lines 141-148): a value at or
above `~(1 << 31)` (that is, 2^31 - 1) is shown as `"-" + (~value + 1)`
padded to 11 characters with the raw value in parentheses; any other value
is shown as its plain decimal digits padded to 11 characters. -/
def renderNumber (value : Nat) : String :=
  if (value : Int) ≥ jsNot (jsShl 1 31) then
    nbspOfSpaces (padStart11 ("-" ++ toString (jsNot value + 1)))
      ++ " (" ++ toString value ++ ")"
  else
    nbspOfSpaces (padStart11 (toString value))

theorem jsNot_shl31 : jsNot (jsShl 1 31) = 2147483647 := by decide

/-- C10. `renderNumber` shows a 32-bit value v as its plain decimal digits
exactly when v < 2^31 - 1; the threshold for negative display is
2147483647 = 2^31 - 1 (the code compares against `~(1 << 31)`), not 2^31.
Above the threshold the display is a minus sign followed by the two's
complement magnitude 2^32 - v (which is `~v + 1` computed in 32 bits); at
the threshold itself, v = 2147483647 is not displayed as a plain positive
number: `~v + 1` evaluates to -2147483647 and the display is
"--2147483647 (2147483647)". -/
theorem c10_render_number (v : Nat) (hv : v < 4294967296) :
    (v < 2147483647 → renderNumber v = nbspOfSpaces (padStart11 (toString v)))
    ∧ (2147483647 < v →
        renderNumber v =
          nbspOfSpaces (padStart11 ("-" ++ toString ((4294967296 : Int) - v)))
            ++ " (" ++ toString v ++ ")")
    ∧ (v = 2147483647 → renderNumber v = "--2147483647 (2147483647)")
    ∧ jsNot (jsShl 1 31) = 2147483647 := by
  refine ⟨?_, ?_, ?_, jsNot_shl31⟩
  · intro h
    unfold renderNumber
    rw [jsNot_shl31, if_neg (by omega)]
  · intro h
    unfold renderNumber
    rw [jsNot_shl31, if_pos (by omega)]
    have hnot : jsNot v + 1 = (4294967296 : Int) - v := by
      simp only [jsNot, jsToInt32]
      rw [show ((v : Int) % 4294967296) = (v : Int) by omega]
      rw [if_neg (by omega)]
      omega
    rw [hnot]
  · intro h
    subst h
    rfl

/-- Witness for C10: 4294967295 (the 32-bit pattern of -1) is displayed as
-1 with the raw value in parentheses. -/
theorem c10_render_number_witness :
    renderNumber 4294967295 =
      nbspOfSpaces (padStart11 ("-" ++ toString ((4294967296 : Int) - (4294967295 : Nat))))
        ++ " (" ++ toString (4294967295 : Nat) ++ ")" :=
  (c10_render_number 4294967295 (by norm_num)).2.1 (by norm_num)

end Armul
